import Mathlib

/-! Verification development for the LZW codec `pyart/aux_io/lzw15.py`.

The definitions below are a shallow embedding of the Python source, kept as
close to the original control flow as Lean's totality requirements allow.
Bytes and codepoints are modelled as `Nat`; byte strings as `List Nat`;
Python dictionaries as association lists extended with the fixed initial
entries; Python exceptions as `Except String`.  Python `while` loops on
shrinking numbers are written with an explicit fuel argument that is always
large enough to be irrelevant. -/

namespace Lzw15

/-- Constant from the source: `END_OF_INFO_CODE = 256`. -/
def END_OF_INFO_CODE : Nat := 256

/-- Constant from the source: `BUMP_CODE = 257`. -/
def BUMP_CODE : Nat := 257

/-- Constant from the source: `NEXT_BUMP_CODE = 511`. -/
def NEXT_BUMP_CODE : Nat := 511

/-- Constant from the source: `CLEAR_CODE = 258`. -/
def CLEAR_CODE : Nat := 258

/-- Constant from the source: `DEFAULT_MIN_BITS = 9`. -/
def DEFAULT_MIN_BITS : Nat := 9

/-- Constant from the source: `DEFAULT_MAX_BITS = 15`. -/
def DEFAULT_MAX_BITS : Nat := 15

/-- Constant from the source: `MAX_CODE = 2**DEFAULT_MAX_BITS`. -/
def MAX_CODE : Nat := 2 ^ DEFAULT_MAX_BITS

/-- Constant from the source: `FIRST_CODE = 259`. -/
def FIRST_CODE : Nat := 259

/-! Bit-sequence utilities (`inttobits`, `intfrombits`, `bytestobits`,
`bitstobytes`). -/

/-- Loop of `inttobits`:
`while remains: retreverse.append(remains & 1); remains = remains >> 1`.
Returns the LSB-first bit list of `remains`.  The first argument is fuel;
any fuel `≥ remains` gives the loop's result (`remains` halves each turn). -/
def bitsLsbAux : Nat → Nat → List Nat
  | 0, _ => []
  | _ + 1, 0 => []
  | fuel + 1, remains => (remains &&& 1) :: bitsLsbAux fuel (remains >>> 1)

/-- Source `inttobits(anint, width)`: MSB-first bits of `anint`, left-padded
with zeros to `width` bits (`[0] * (width - len(ret))` is empty when the
value needs more than `width` bits, so the result is never truncated). -/
def inttobits (anint : Nat) (width : Nat) : List Nat :=
  let retreverse := bitsLsbAux anint anint
  let ret := retreverse.reverse
  List.replicate (width - ret.length) 0 ++ ret

/-- Source `intfrombits(bits)`:
`lsb_first = reversed(bits); for i, el in enumerate(lsb_first): if el: ret |= 1 << i`. -/
def intfrombits (bits : List Nat) : Nat :=
  (List.enumFrom 0 bits.reverse).foldl
    (fun ret p => if p.2 ≠ 0 then ret ||| (1 <<< p.1) else ret) 0

/-- Inner loop of `bytestobits` for one byte:
`for bitplusone in range(8, 0, -1): yield 1 & (value >> (bitplusone - 1))`. -/
def byteToBits (value : Nat) : List Nat :=
  [7, 6, 5, 4, 3, 2, 1, 0].map (fun bitindex => 1 &&& (value >>> bitindex))

/-- Source `bytestobits(bytesource)`: 8 bits per byte, MSB first. -/
def bytestobits (bytesource : List Nat) : List Nat :=
  (bytesource.map byteToBits).flatten

/-- Loop state of `bitstobytes`: the list so far (`ret`), the byte being
assembled (`nextbyte`) and the bit position to set next (`nextbit`). -/
def bitstobytesAux : List Nat → Nat → Nat → List Nat
  | [], nextbyte, nextbit =>
      -- trailing `if nextbit < 7: ret.append(nextbyte)`
      if nextbit < 7 then [nextbyte] else []
  | bit :: rest, nextbyte, nextbit =>
      let nextbyte := if bit ≠ 0 then nextbyte ||| (1 <<< nextbit) else nextbyte
      if nextbit ≠ 0 then bitstobytesAux rest nextbyte (nextbit - 1)
      else nextbyte :: bitstobytesAux rest 0 7

/-- Source `bitstobytes(bits)`: packs an MSB-first bit list into byte values,
zero-padding the low bits of a final partial byte. -/
def bitstobytes (bits : List Nat) : List Nat :=
  bitstobytesAux bits 0 7

/-! The `BitPacker`.  Its mutable loop state in `pack` is `tailbits`,
`codesize` and `nextwidth`; each inbound codepoint appends `nextwidth` bits
and then every complete group of 8 leading bits is flushed as a byte. -/

/-- State of the `BitPacker.pack` loop. -/
structure PackState where
  tailbits : List Nat
  codesize : Nat
  nextwidth : Nat
deriving DecidableEq

/-- Loop `while len(tailbits) % 8: tailbits.append(0)`: pad with zeros up to
the next multiple of 8 (performed after an `END_OF_INFO_CODE`). -/
def padTo8 (tailbits : List Nat) : List Nat :=
  tailbits ++ List.replicate ((8 - tailbits.length % 8) % 8) 0

/-- Loop `while len(tailbits) > 8: yield bitstobytes(tailbits[:8]); tailbits = tailbits[8:]`.
Returns the flushed bytes and the remaining tail (of length at most 8).
The guard `len > 8` is the source's: a tail of exactly 8 bits stays put. -/
def drainBits : List Nat → List Nat × List Nat
  | b0 :: b1 :: b2 :: b3 :: b4 :: b5 :: b6 :: b7 :: c :: rest =>
      let p := drainBits (c :: rest)
      (bitstobytes [b0, b1, b2, b3, b4, b5, b6, b7] ++ p.1, p.2)
  | tailbits => ([], tailbits)

/-- One iteration of the `for pt in codepoints` loop of `BitPacker.pack`:
append `inttobits(pt, nextwidth)`; `codesize += 1`; pad to a byte boundary
if `pt == END_OF_INFO_CODE`; widen if `pt == BUMP_CODE` (else the source
merely prints a warning when `codesize >= MAX_CODE`); flush whole bytes. -/
def packStep (s : PackState) (pt : Nat) : PackState × List Nat :=
  let newbits := inttobits pt s.nextwidth
  let tailbits := s.tailbits ++ newbits
  let codesize := s.codesize + 1
  let tailbits := if pt = END_OF_INFO_CODE then padTo8 tailbits else tailbits
  let nextwidth := if pt = BUMP_CODE then s.nextwidth + 1 else s.nextwidth
  let p := drainBits tailbits
  (⟨p.2, codesize, nextwidth⟩, p.1)

/-- The `for` loop of `BitPacker.pack` over the whole codepoint list. -/
def packLoop : PackState → List Nat → PackState × List Nat
  | s, [] => (s, [])
  | s, pt :: rest =>
      let p := packStep s pt
      let q := packLoop p.1 rest
      (q.1, p.2 ++ q.2)

/-- Initial state of `BitPacker.pack`: empty bit buffer,
`codesize = initial_code_size`, width `DEFAULT_MIN_BITS`. -/
def initPack (initial_code_size : Nat) : PackState :=
  ⟨[], initial_code_size, DEFAULT_MIN_BITS⟩

/-- Source `BitPacker.pack`: run the loop, then flush any final partial
tail through `bitstobytes` (`if tailbits: ... yield`). -/
def BitPacker.pack (initial_code_size : Nat) (codepoints : List Nat) : List Nat :=
  let q := packLoop (initPack initial_code_size) codepoints
  q.2 ++ (if q.1.tailbits ≠ [] then bitstobytes q.1.tailbits else [])

/-! The `BitUnpacker`. -/

/-- State of the `BitUnpacker.unpack` loop: the accumulating `bits`, the
`offset` within the current byte, the count of bits still to `ignore`, the
running `codesize` and the current `pointwidth`. -/
structure UnpackState where
  bits : List Nat
  offset : Nat
  ignore : Nat
  codesize : Nat
  pointwidth : Nat
deriving DecidableEq

/-- One iteration of `for nextbit in bytestobits(bytesource)` in
`BitUnpacker.unpack`: advance `offset`; skip the bit when `ignore > 0`;
otherwise accumulate it, and when `pointwidth` bits are held emit the
codepoint, widen on `BUMP_CODE`, and arm `ignore` up to the next byte
boundary on `END_OF_INFO_CODE`. -/
def unpackBit (s : UnpackState) (nextbit : Nat) : UnpackState × List Nat :=
  let offset := (s.offset + 1) % 8
  if s.ignore > 0 then
    ({ s with offset := offset, ignore := s.ignore - 1 }, [])
  else
    let bits := s.bits ++ [nextbit]
    if bits.length = s.pointwidth then
      let codepoint := intfrombits bits
      let codesize := s.codesize + 1
      let pointwidth := if codepoint = BUMP_CODE then s.pointwidth + 1 else s.pointwidth
      let ignore := if codepoint = END_OF_INFO_CODE then (8 - offset) % 8 else 0
      (⟨[], offset, ignore, codesize, pointwidth⟩, [codepoint])
    else
      ({ s with bits := bits, offset := offset }, [])

/-- The bit loop of `BitUnpacker.unpack` over a list of bits. -/
def unpackLoop : UnpackState → List Nat → UnpackState × List Nat
  | s, [] => (s, [])
  | s, b :: rest =>
      let p := unpackBit s b
      let q := unpackLoop p.1 rest
      (q.1, p.2 ++ q.2)

/-- Initial state of `BitUnpacker.unpack`: `bits = []`, `offset = 0`,
`ignore = 0`, `codesize = initial_code_size`,
`minwidth = DEFAULT_MIN_BITS` and `pointwidth = minwidth`. -/
def initUnpack (initial_code_size : Nat) : UnpackState :=
  ⟨[], 0, 0, initial_code_size, DEFAULT_MIN_BITS⟩

/-- Source `BitUnpacker.unpack`: iterate over `bytestobits(bytesource)`;
bits left over at the end that do not complete a codepoint are dropped. -/
def BitUnpacker.unpack (initial_code_size : Nat) (bytesource : List Nat) : List Nat :=
  (unpackLoop (initUnpack initial_code_size) (bytestobits bytesource)).2

/-! The `Decoder`.  Its `_codepoints` dictionary maps codepoints to values:
the 256 initial single-byte strings, the three control entries stored as
plain integers (a "teensy hack" in the source: `_codepoints[256] = 256`
etc.), and the byte strings added while decoding (always at key
`len(_codepoints)`, i.e. `259 + number of added entries`). -/

/-- Value stored in the decoder dictionary: a byte string, or one of the
three control entries which the source stores as a raw integer. -/
inductive DVal where
  | bs : List Nat → DVal
  | ctrl : Nat → DVal
deriving DecidableEq

/-- Association-list lookup for the decoder's added entries. -/
def lookupCode : List (Nat × DVal) → Nat → Option DVal
  | [], _ => none
  | (k, v) :: rest, cp => if k = cp then some v else lookupCode rest cp

/-- State of a `Decoder`: the entries added beyond the 259 initial ones,
and `_prefix` (`none` models Python `None`; a `DVal` otherwise, since the
source can in principle store the raw control integers there). -/
structure DecState where
  added : List (Nat × DVal)
  pfx : Option DVal
deriving DecidableEq

/-- Source `Decoder.code_size()`: `len(self._codepoints)`, which is 259
(256 single bytes plus the three control entries) plus the added entries. -/
def DecState.code_size (st : DecState) : Nat := 259 + st.added.length

/-- Source `Decoder._clear_codes`: reset the dictionary to its 259 initial
entries and set `_prefix = None`. -/
def clearDecCodes (st : DecState) : DecState :=
  { st with added := [], pfx := none }

/-- Fresh `Decoder()` (its `__init__` calls `_clear_codes`). -/
def initDecState : DecState := ⟨[], none⟩

/-- Lookup in `_codepoints`: single-byte entries for 0..255, the three
integer control entries, then the added entries. -/
def decLookup (st : DecState) (cp : Nat) : Option DVal :=
  if cp < 256 then some (.bs [cp])
  else if cp = END_OF_INFO_CODE then some (.ctrl END_OF_INFO_CODE)
  else if cp = BUMP_CODE then some (.ctrl BUMP_CODE)
  else if cp = CLEAR_CODE then some (.ctrl CLEAR_CODE)
  else lookupCode st.added cp

/-- Error message raised by `_decode_codepoint` on `END_OF_INFO_CODE`. -/
def eoiErrorMsg : String :=
  "End of information code not supported directly by this Decoder"

/-- Source `Decoder._decode_codepoint(codepoint)`.  `CLEAR_CODE` resets the
codebook and returns the empty byte string; `END_OF_INFO_CODE` raises a
`ValueError`; a known codepoint returns its entry and (when `_prefix` is not
`None`) adds `_prefix + ret[0]` at the next code; an unknown codepoint is
the LZW self-reference case `ret = _prefix + _prefix[0]`.  Python exceptions
(`ValueError`, and the `TypeError`/`IndexError` that `operator.getitem` or
`+` would raise on the integer-valued control entries, an empty byte string,
or a `None` prefix) are modelled as `Except.error`. -/
def Decoder.decode_codepoint (st : DecState) (codepoint : Nat) :
    Except String (DVal × DecState) :=
  if codepoint = CLEAR_CODE then
    .ok (.bs [], clearDecCodes st)
  else if codepoint = END_OF_INFO_CODE then
    .error eoiErrorMsg
  else
    match decLookup st codepoint with
    | some (.bs ret) =>
        match st.pfx with
        | some (.bs p) =>
            match ret with
            | [] => .error "IndexError"
            | r0 :: _ =>
                let st1 : DecState :=
                  { st with added := st.added ++ [(st.code_size, .bs (p ++ [r0]))] }
                .ok (.bs ret, { st1 with pfx := some (.bs ret) })
        | some (.ctrl _) =>
            match ret with
            | [] => .error "IndexError"
            | _ :: _ => .error "TypeError"
        | none => .ok (.bs ret, { st with pfx := some (.bs ret) })
    | some (.ctrl n) =>
        match st.pfx with
        | some _ => .error "TypeError"
        | none => .ok (.ctrl n, { st with pfx := some (.ctrl n) })
    | none =>
        match st.pfx with
        | none => .error "TypeError"
        | some (.ctrl _) => .error "TypeError"
        | some (.bs p) =>
            match p with
            | [] => .error "IndexError"
            | p0 :: _ =>
                let ret := p ++ [p0]
                let st1 : DecState :=
                  { st with added := st.added ++ [(st.code_size, .bs ret)] }
                .ok (.bs ret, { st1 with pfx := some (.bs ret) })

/-- Loop of `Decoder.decode` over the materialised codepoint list: skip
`BUMP_CODE`, `return` at `END_OF_INFO_CODE`, otherwise decode the codepoint
and yield its bytes one at a time.  Returns the yielded bytes together with
the final state, or the pending exception.  A `.ctrl` decode result would
make the `for character in iter(decoded)` raise a `TypeError`. -/
def Decoder.decodeLoop : DecState → List Nat → List Nat × Except String DecState
  | st, [] => ([], .ok st)
  | st, cp :: rest =>
      if cp = BUMP_CODE then Decoder.decodeLoop st rest
      else if cp = END_OF_INFO_CODE then ([], .ok st)
      else
        match Decoder.decode_codepoint st cp with
        | .error e => ([], .error e)
        | .ok (.ctrl _, _) => ([], .error "TypeError")
        | .ok (.bs out, st1) =>
            let q := Decoder.decodeLoop st1 rest
            (out ++ q.1, q.2)

/-- Source `Decoder.decode(codepoints)`.  Its first statement
`codepoints = [cp for cp in codepoints]` drains the entire source iterator
before any codepoint is processed, so the part of the source left unconsumed
by this Decoder — the second component here — is always empty. -/
def Decoder.decode (st : DecState) (codepoints : List Nat) :
    (List Nat × Except String DecState) × List Nat :=
  (Decoder.decodeLoop st codepoints, [])

/-! The `Encoder`.  Its `_prefixes` dictionary maps byte strings to
codepoints: the 256 single-byte strings map to themselves, the three
control entries are keyed by raw integers (never by a byte string, so a
byte-string lookup cannot hit them), and entries added by `_add_code` are
keyed by strings of length at least 2 with value `len(_prefixes)`
(`259 + number of added entries`) at insertion time. -/

/-- Association-list lookup for the encoder's added entries. -/
def lookupStr : List (List Nat × Nat) → List Nat → Option Nat
  | [], _ => none
  | (k, v) :: rest, w => if k = w then some v else lookupStr rest w

/-- State of an `Encoder`. -/
structure EncState where
  closed : Bool
  max_code_size : Nat
  buffer : List Nat
  added : List (List Nat × Nat)
  next_bumb_code : Nat
  current_code_bits : Nat
deriving DecidableEq

/-- Source `Encoder.code_size()`: `len(self._prefixes)` = 259 initial
entries plus the added ones. -/
def EncState.code_size (st : EncState) : Nat := 259 + st.added.length

/-- Lookup of a byte string in `_prefixes`: a single byte value below 256
is its own code; longer strings are found among the added entries. -/
def prefixesLookup (st : EncState) (w : List Nat) : Option Nat :=
  match w with
  | [b] => if b < 256 then some b else none
  | _ => lookupStr st.added w

/-- Source `Encoder._clear_codes`: reset `_prefixes` to the 259 initial
entries, `_next_bumb_code = NEXT_BUMP_CODE`, `_current_code_bits = 9`.
(The buffer is untouched by `_clear_codes` itself.) -/
def clearEncCodes (st : EncState) : EncState :=
  { st with added := [], next_bumb_code := NEXT_BUMP_CODE, current_code_bits := 9 }

/-- Source `Encoder._add_code(newstring)`:
`_prefixes[newstring] = len(_prefixes)` (the length before insertion). -/
def addCode (st : EncState) (newstring : List Nat) : EncState :=
  { st with added := st.added ++ [(newstring, st.code_size)] }

/-- The `Encoder` state built by `__init__` (before its size validation). -/
def Encoder.initSt (max_code_size : Nat) : EncState :=
  { closed := false, max_code_size := max_code_size, buffer := [],
    added := [], next_bumb_code := NEXT_BUMP_CODE, current_code_bits := 9 }

/-- Source `Encoder.__init__(max_code_size)`: build the fresh state, then
`raise ValueError` when `max_code_size < self.code_size()` (= 259), before
any input data is seen. -/
def Encoder.init (max_code_size : Nat) : Except String EncState :=
  let st := Encoder.initSt max_code_size
  if max_code_size < st.code_size then
    .error "Max code size too small, (must be at least 259)"
  else .ok st

/-- Source `Encoder.flush()`: yield the code of any buffered byte string
(the buffer is always a key of `_prefixes` in reachable states, where the
source would raise `KeyError` we take the irrelevant default 0), then yield
`END_OF_INFO_CODE`, then `_clear_codes`.  Note the source's own docstring
says a `CLEAR_CODE` is yielded, but the code yields `END_OF_INFO_CODE`. -/
def Encoder.flush (st : EncState) : EncState × List Nat :=
  let p :=
    if st.buffer ≠ [] then
      ({ st with buffer := [] }, [(prefixesLookup st st.buffer).getD 0])
    else (st, [])
  (clearEncCodes p.1, p.2 ++ [END_OF_INFO_CODE])

/-- Source `Encoder.bump()`: yield `BUMP_CODE`, then
`_current_code_bits += 1; _next_bumb_code = (_next_bumb_code << 1) | 1`. -/
def Encoder.bump (st : EncState) : EncState × List Nat :=
  ({ st with current_code_bits := st.current_code_bits + 1,
             next_bumb_code := (st.next_bumb_code <<< 1) ||| 1 }, [BUMP_CODE])

/-- Source `Encoder._encode_byte(point)`: with `byte` the one-byte string of
`point` (the input must be a byte value 0..255; `struct.pack(">B", point)`
would raise otherwise) and `new_prefix` the buffer: extend the buffer when
`new_prefix + byte` is a known key; otherwise, when the buffer is nonempty,
yield its code, `_add_code(new_prefix + byte)` and keep `byte`; an empty
buffer is simply replaced (the source's final `self._buffer = new_prefix`). -/
def Encoder.encode_byte (st : EncState) (point : Nat) : EncState × List Nat :=
  let byte := [point]
  let new_pfx := st.buffer
  if (prefixesLookup st (new_pfx ++ byte)).isSome then
    ({ st with buffer := new_pfx ++ byte }, [])
  else if new_pfx ≠ [] then
    let encoded := (prefixesLookup st new_pfx).getD 0
    let st1 := addCode st (new_pfx ++ byte)
    ({ st1 with buffer := byte }, [encoded])
  else
    ({ st with buffer := new_pfx }, [])

/-- Body of the `for b in bytesource` loop of `Encoder.encode`:
`_encode_byte`, then `flush` when `code_size() > _max_code_size`, then
`bump` when `code_size() > _next_bumb_code` (flush is checked first and
resets the bump threshold). -/
def encStep (st : EncState) (b : Nat) : EncState × List Nat :=
  let p1 := Encoder.encode_byte st b
  let p2 := if p1.1.code_size > p1.1.max_code_size then Encoder.flush p1.1 else (p1.1, [])
  let p3 := if p2.1.code_size > p2.1.next_bumb_code then Encoder.bump p2.1 else (p2.1, [])
  (p3.1, p1.2 ++ p2.2 ++ p3.2)

/-- The `for b in bytesource` loop of `Encoder.encode`. -/
def encodeLoop : EncState → List Nat → EncState × List Nat
  | st, [] => (st, [])
  | st, b :: rest =>
      let p := encStep st b
      let q := encodeLoop p.1 rest
      (q.1, p.2 ++ q.2)

/-- Source `Encoder.encode(bytesource)`: the byte loop followed by the final
`flush` ("Important to get last bytes correct"). -/
def Encoder.encode (st : EncState) (bytesource : List Nat) : List Nat :=
  let q := encodeLoop st bytesource
  q.2 ++ (Encoder.flush q.1).2

/-! The byte-level facade: `ByteEncoder`, `ByteDecoder`, `compress`,
`decompress`. -/

/-- Source `ByteEncoder(max_width).encodetobytes`: an `Encoder` with
`max_code_size = 2**max_width` piped into a `BitPacker` whose
`initial_code_size` is the encoder's `code_size()` (= 259). -/
def ByteEncoder.encodetobytes (max_width : Nat) (bytesource : List Nat) : List Nat :=
  let enc := Encoder.initSt (2 ^ max_width)
  BitPacker.pack enc.code_size (Encoder.encode enc bytesource)

/-- Source `compress(plaintext_bytes)`: `ByteEncoder()` with the default
`max_width = DEFAULT_MAX_BITS`. -/
def compress (plaintext_bytes : List Nat) : List Nat :=
  ByteEncoder.encodetobytes DEFAULT_MAX_BITS plaintext_bytes

/-- Source `ByteDecoder.decodefrombytes`: a `BitUnpacker` whose
`initial_code_size` is the decoder's `code_size()` (= 259) piped into a
`Decoder`; the result is the byte sequence the decode generator yields. -/
def ByteDecoder.decodefrombytes (bytesource : List Nat) : List Nat :=
  (Decoder.decode initDecState
    (BitUnpacker.unpack (initDecState.code_size) bytesource)).1.1

/-- Source `decompress(compressed_bytes)`. -/
def decompress (compressed_bytes : List Nat) : List Nat :=
  ByteDecoder.decodefrombytes compressed_bytes

/-! Concrete fixtures used by the claims, and one helper function for the
bit-utility proofs. -/

/-- Value of an LSB-first bit list: the sum `Σ 2^i` over the set positions
that the `ret = ret | (1 << bit_index)` loop of `intfrombits` accumulates. -/
def intfromlsb : List Nat → Nat
  | [] => 0
  | b :: rest => (if b ≠ 0 then 1 else 0) + 2 * intfromlsb rest

/-- Bytes of the literal text "gabba gabba yo gabba". -/
def gabbaBytes : List Nat :=
  [103, 97, 98, 98, 97, 32, 103, 97, 98, 98, 97, 32, 121, 111, 32, 103, 97, 98, 98, 97]

/-- Codepoint sequence that the docstrings of `Encoder.encode` and
`Decoder.decode` display for that text (first dynamic code 258). -/
def gabbaDocCodes : List Nat :=
  [103, 97, 98, 98, 97, 32, 258, 260, 262, 121, 111, 263, 259, 261, 256]

/-- Codepoint sequence the code actually produces for that text (dynamic
codes are assigned from `FIRST_CODE = 259` upward). -/
def gabbaCodes : List Nat :=
  [103, 97, 98, 98, 97, 32, 259, 261, 263, 121, 111, 264, 260, 262, 256]

/-- A 256-byte input `[0,1,0,2,...,0,128]` whose consecutive pairs are
pairwise distinct, so the encoder codebook grows by one entry per byte and
overflows a `max_width = 9` configuration mid-stream. -/
def bugInput : List Nat :=
  ((List.range 128).map (fun k => [0, k + 1])).flatten

/-- The packed bytes of `bugInput` under `max_width = 9`, split into
16-byte chunks so that every kernel evaluation of the bit-level unpack
loop stays shallow. -/
def bugPackedChunk1 : List Nat := [0, 0, 64, 0, 32, 0, 12, 0, 4, 0, 1, 64, 0, 96, 0, 28]

/-- Chunk 2 of the packed bytes of `bugInput`. -/
def bugPackedChunk2 : List Nat := [0, 8, 0, 2, 64, 0, 160, 0, 44, 0, 12, 0, 3, 64, 0, 224]

/-- Chunk 3 of the packed bytes of `bugInput`. -/
def bugPackedChunk3 : List Nat := [0, 60, 0, 16, 0, 4, 64, 1, 32, 0, 76, 0, 20, 0, 5, 64]

/-- Chunk 4 of the packed bytes of `bugInput`. -/
def bugPackedChunk4 : List Nat := [1, 96, 0, 92, 0, 24, 0, 6, 64, 1, 160, 0, 108, 0, 28, 0]

/-- Chunk 5 of the packed bytes of `bugInput`. -/
def bugPackedChunk5 : List Nat := [7, 64, 1, 224, 0, 124, 0, 32, 0, 8, 64, 2, 32, 0, 140, 0]

/-- Chunk 6 of the packed bytes of `bugInput`. -/
def bugPackedChunk6 : List Nat := [36, 0, 9, 64, 2, 96, 0, 156, 0, 40, 0, 10, 64, 2, 160, 0]

/-- Chunk 7 of the packed bytes of `bugInput`. -/
def bugPackedChunk7 : List Nat := [172, 0, 44, 0, 11, 64, 2, 224, 0, 188, 0, 48, 0, 12, 64, 3]

/-- Chunk 8 of the packed bytes of `bugInput`. -/
def bugPackedChunk8 : List Nat := [32, 0, 204, 0, 52, 0, 13, 64, 3, 96, 0, 220, 0, 56, 0, 14]

/-- Chunk 9 of the packed bytes of `bugInput`. -/
def bugPackedChunk9 : List Nat := [64, 3, 160, 0, 236, 0, 60, 0, 15, 64, 3, 224, 0, 252, 0, 64]

/-- Chunk 10 of the packed bytes of `bugInput`. -/
def bugPackedChunk10 : List Nat := [0, 16, 64, 4, 32, 1, 12, 0, 68, 0, 17, 64, 4, 96, 1, 28]

/-- Chunk 11 of the packed bytes of `bugInput`. -/
def bugPackedChunk11 : List Nat := [0, 72, 0, 18, 64, 4, 160, 1, 44, 0, 76, 0, 19, 64, 4, 224]

/-- Chunk 12 of the packed bytes of `bugInput`. -/
def bugPackedChunk12 : List Nat := [1, 60, 0, 80, 0, 20, 64, 5, 32, 1, 76, 0, 84, 0, 21, 64]

/-- Chunk 13 of the packed bytes of `bugInput`. -/
def bugPackedChunk13 : List Nat := [5, 96, 1, 92, 0, 88, 0, 22, 64, 5, 160, 1, 108, 0, 92, 0]

/-- Chunk 14 of the packed bytes of `bugInput`. -/
def bugPackedChunk14 : List Nat := [23, 64, 5, 224, 1, 124, 0, 96, 0, 24, 64, 6, 32, 1, 140, 0]

/-- Chunk 15 of the packed bytes of `bugInput`. -/
def bugPackedChunk15 : List Nat := [100, 0, 25, 64, 6, 96, 1, 156, 0, 104, 0, 26, 64, 6, 160, 1]

/-- Chunk 16 of the packed bytes of `bugInput`. -/
def bugPackedChunk16 : List Nat := [172, 0, 108, 0, 27, 64, 6, 224, 1, 188, 0, 112, 0, 28, 64, 7]

/-- Chunk 17 of the packed bytes of `bugInput`. -/
def bugPackedChunk17 : List Nat := [32, 1, 204, 0, 116, 0, 29, 64, 7, 96, 1, 220, 0, 120, 0, 30]

/-- Chunk 18 of the packed bytes of `bugInput`. -/
def bugPackedChunk18 : List Nat := [64, 7, 160, 1, 236, 0, 124, 0, 31, 64, 7, 224, 4, 4, 127, 0]

/-- Chunk 19 of the packed bytes of `bugInput`. -/
def bugPackedChunk19 : List Nat := [16, 0, 32, 16, 0]

/-- The full packed byte stream of `bugInput` under `max_width = 9`. -/
def bugPacked : List Nat :=
  bugPackedChunk1 ++ bugPackedChunk2 ++ bugPackedChunk3 ++ bugPackedChunk4 ++ bugPackedChunk5 ++ bugPackedChunk6 ++ bugPackedChunk7 ++ bugPackedChunk8 ++ bugPackedChunk9 ++ bugPackedChunk10 ++ bugPackedChunk11 ++ bugPackedChunk12 ++ bugPackedChunk13 ++ bugPackedChunk14 ++ bugPackedChunk15 ++ bugPackedChunk16 ++ bugPackedChunk17 ++ bugPackedChunk18 ++ bugPackedChunk19

/-- The codepoint stream `Encoder.encode` emits for `bugInput` at
`max_code_size = 2 ^ 9`: the first 253 bytes as literals, `BUMP_CODE` when
the codebook reaches 512 entries, then the overflow flush's buffered code
and mid-stream `END_OF_INFO_CODE`, the remaining byte and the final
terminator. -/
def bugCodes : List Nat :=
  ((List.range 126).map (fun k => [0, k + 1])).flatten ++ [0, 257, 127, 0, 256, 128, 256]

/-- Unpacker state after chunk 1 of `bugPacked`. -/
def unpackMid1 : UnpackState := ⟨[0, 0], 0, 0, 273, 9⟩

/-- Codepoints the unpacker emits on chunk 1 of `bugPacked`. -/
def unpackOut1 : List Nat := [0, 1, 0, 2, 0, 3, 0, 4, 0, 5, 0, 6, 0, 7]

/-- Unpacker state after chunk 2 of `bugPacked`. -/
def unpackMid2 : UnpackState := ⟨[0, 0, 0, 0], 0, 0, 287, 9⟩

/-- Codepoints the unpacker emits on chunk 2 of `bugPacked`. -/
def unpackOut2 : List Nat := [0, 8, 0, 9, 0, 10, 0, 11, 0, 12, 0, 13, 0, 14]

/-- Unpacker state after chunk 3 of `bugPacked`. -/
def unpackMid3 : UnpackState := ⟨[0, 0, 0, 0, 0, 0], 0, 0, 301, 9⟩

/-- Codepoints the unpacker emits on chunk 3 of `bugPacked`. -/
def unpackOut3 : List Nat := [0, 15, 0, 16, 0, 17, 0, 18, 0, 19, 0, 20, 0, 21]

/-- Unpacker state after chunk 4 of `bugPacked`. -/
def unpackMid4 : UnpackState := ⟨[0, 0, 0, 0, 0, 0, 0, 0], 0, 0, 315, 9⟩

/-- Codepoints the unpacker emits on chunk 4 of `bugPacked`. -/
def unpackOut4 : List Nat := [0, 22, 0, 23, 0, 24, 0, 25, 0, 26, 0, 27, 0, 28]

/-- Unpacker state after chunk 5 of `bugPacked`. -/
def unpackMid5 : UnpackState := ⟨[0], 0, 0, 330, 9⟩

/-- Codepoints the unpacker emits on chunk 5 of `bugPacked`. -/
def unpackOut5 : List Nat := [0, 29, 0, 30, 0, 31, 0, 32, 0, 33, 0, 34, 0, 35, 0]

/-- Unpacker state after chunk 6 of `bugPacked`. -/
def unpackMid6 : UnpackState := ⟨[0, 0, 0], 0, 0, 344, 9⟩

/-- Codepoints the unpacker emits on chunk 6 of `bugPacked`. -/
def unpackOut6 : List Nat := [36, 0, 37, 0, 38, 0, 39, 0, 40, 0, 41, 0, 42, 0]

/-- Unpacker state after chunk 7 of `bugPacked`. -/
def unpackMid7 : UnpackState := ⟨[0, 0, 0, 1, 1], 0, 0, 358, 9⟩

/-- Codepoints the unpacker emits on chunk 7 of `bugPacked`. -/
def unpackOut7 : List Nat := [43, 0, 44, 0, 45, 0, 46, 0, 47, 0, 48, 0, 49, 0]

/-- Unpacker state after chunk 8 of `bugPacked`. -/
def unpackMid8 : UnpackState := ⟨[0, 0, 0, 1, 1, 1, 0], 0, 0, 372, 9⟩

/-- Codepoints the unpacker emits on chunk 8 of `bugPacked`. -/
def unpackOut8 : List Nat := [50, 0, 51, 0, 52, 0, 53, 0, 54, 0, 55, 0, 56, 0]

/-- Unpacker state after chunk 9 of `bugPacked`. -/
def unpackMid9 : UnpackState := ⟨[], 0, 0, 387, 9⟩

/-- Codepoints the unpacker emits on chunk 9 of `bugPacked`. -/
def unpackOut9 : List Nat := [57, 0, 58, 0, 59, 0, 60, 0, 61, 0, 62, 0, 63, 0, 64]

/-- Unpacker state after chunk 10 of `bugPacked`. -/
def unpackMid10 : UnpackState := ⟨[0, 0], 0, 0, 401, 9⟩

/-- Codepoints the unpacker emits on chunk 10 of `bugPacked`. -/
def unpackOut10 : List Nat := [0, 65, 0, 66, 0, 67, 0, 68, 0, 69, 0, 70, 0, 71]

/-- Unpacker state after chunk 11 of `bugPacked`. -/
def unpackMid11 : UnpackState := ⟨[0, 0, 0, 0], 0, 0, 415, 9⟩

/-- Codepoints the unpacker emits on chunk 11 of `bugPacked`. -/
def unpackOut11 : List Nat := [0, 72, 0, 73, 0, 74, 0, 75, 0, 76, 0, 77, 0, 78]

/-- Unpacker state after chunk 12 of `bugPacked`. -/
def unpackMid12 : UnpackState := ⟨[0, 0, 0, 0, 0, 0], 0, 0, 429, 9⟩

/-- Codepoints the unpacker emits on chunk 12 of `bugPacked`. -/
def unpackOut12 : List Nat := [0, 79, 0, 80, 0, 81, 0, 82, 0, 83, 0, 84, 0, 85]

/-- Unpacker state after chunk 13 of `bugPacked`. -/
def unpackMid13 : UnpackState := ⟨[0, 0, 0, 0, 0, 0, 0, 0], 0, 0, 443, 9⟩

/-- Codepoints the unpacker emits on chunk 13 of `bugPacked`. -/
def unpackOut13 : List Nat := [0, 86, 0, 87, 0, 88, 0, 89, 0, 90, 0, 91, 0, 92]

/-- Unpacker state after chunk 14 of `bugPacked`. -/
def unpackMid14 : UnpackState := ⟨[0], 0, 0, 458, 9⟩

/-- Codepoints the unpacker emits on chunk 14 of `bugPacked`. -/
def unpackOut14 : List Nat := [0, 93, 0, 94, 0, 95, 0, 96, 0, 97, 0, 98, 0, 99, 0]

/-- Unpacker state after chunk 15 of `bugPacked`. -/
def unpackMid15 : UnpackState := ⟨[0, 0, 1], 0, 0, 472, 9⟩

/-- Codepoints the unpacker emits on chunk 15 of `bugPacked`. -/
def unpackOut15 : List Nat := [100, 0, 101, 0, 102, 0, 103, 0, 104, 0, 105, 0, 106, 0]

/-- Unpacker state after chunk 16 of `bugPacked`. -/
def unpackMid16 : UnpackState := ⟨[0, 0, 1, 1, 1], 0, 0, 486, 9⟩

/-- Codepoints the unpacker emits on chunk 16 of `bugPacked`. -/
def unpackOut16 : List Nat := [107, 0, 108, 0, 109, 0, 110, 0, 111, 0, 112, 0, 113, 0]

/-- Unpacker state after chunk 17 of `bugPacked`. -/
def unpackMid17 : UnpackState := ⟨[0, 0, 1, 1, 1, 1, 0], 0, 0, 500, 9⟩

/-- Codepoints the unpacker emits on chunk 17 of `bugPacked`. -/
def unpackOut17 : List Nat := [114, 0, 115, 0, 116, 0, 117, 0, 118, 0, 119, 0, 120, 0]

/-- Unpacker state after chunk 18 of `bugPacked`. -/
def unpackMid18 : UnpackState := ⟨[0, 0, 0, 0, 0, 0, 0, 0], 0, 0, 514, 10⟩

/-- Codepoints the unpacker emits on chunk 18 of `bugPacked`. -/
def unpackOut18 : List Nat := [121, 0, 122, 0, 123, 0, 124, 0, 125, 0, 126, 0, 257, 127]

/-- Unpacker state after chunk 19 of `bugPacked`. -/
def unpackMid19 : UnpackState := ⟨[], 0, 0, 518, 10⟩

/-- Codepoints the unpacker emits on chunk 19 of `bugPacked`. -/
def unpackOut19 : List Nat := [0, 256, 128, 256]

/-! Helper lemmas about the bit-sequence utilities. -/

/-- Oring a fresh power of two into a smaller number is addition. -/
theorem lor_two_pow_of_lt (k : Nat) : ∀ a, a < 2 ^ k → a ||| 2 ^ k = a + 2 ^ k := by
  induction k with
  | zero =>
      intro a ha
      have h0 : a = 0 := by omega
      subst h0; decide
  | succ k ih =>
      intro a ha
      have hm : a / 2 < 2 ^ k := by
        rw [pow_succ] at ha; omega
      have hb := Nat.bit_decide_mod_two_eq_one_shiftRight_one a
      rw [Nat.shiftRight_one] at hb
      have hpow : (2 : Nat) ^ (k + 1) = Nat.bit false (2 ^ k) := by
        simp [Nat.bit_val, pow_succ]; ring
      calc a ||| 2 ^ (k + 1)
          = Nat.bit (decide (a % 2 = 1)) (a / 2) ||| Nat.bit false (2 ^ k) := by
            rw [hb, ← hpow]
        _ = Nat.bit (decide (a % 2 = 1) || false) (a / 2 ||| 2 ^ k) :=
            Nat.lor_bit _ _ _ _
        _ = Nat.bit (decide (a % 2 = 1)) (a / 2 + 2 ^ k) := by
            rw [Bool.or_false, ih _ hm]
        _ = a + 2 ^ (k + 1) := by
            rw [Nat.bit_val] at hb ⊢
            rw [pow_succ]
            omega

/-- The enumerated or-fold of `intfrombits`, started at index `k` with an
accumulator below `2 ^ k`, adds `2 ^ k` times the LSB-first value. -/
theorem foldOr_enumFrom (l : List Nat) : ∀ k acc, acc < 2 ^ k →
    (List.enumFrom k l).foldl
        (fun ret p => if p.2 ≠ 0 then ret ||| (1 <<< p.1) else ret) acc
      = acc + 2 ^ k * intfromlsb l := by
  induction l with
  | nil => intro k acc _; simp [intfromlsb]
  | cons b rest ih =>
      intro k acc hacc
      simp only [List.enumFrom, List.foldl_cons, intfromlsb]
      by_cases hb : b ≠ 0
      · rw [if_pos hb, Nat.one_shiftLeft, lor_two_pow_of_lt k acc hacc,
          ih (k + 1) (acc + 2 ^ k) (by rw [pow_succ]; omega)]
        rw [if_pos hb, pow_succ]; ring
      · rw [if_neg hb, ih (k + 1) acc (by rw [pow_succ]; omega)]
        rw [if_neg hb, pow_succ]; ring

/-- Trailing zeros do not change the LSB-first value. -/
theorem intfromlsb_replicate_zero (k : Nat) : intfromlsb (List.replicate k 0) = 0 := by
  induction k with
  | zero => rfl
  | succ k ih => simp [List.replicate, intfromlsb, ih]

/-- Appended trailing zeros do not change the LSB-first value. -/
theorem intfromlsb_append_zeros (l : List Nat) (k : Nat) :
    intfromlsb (l ++ List.replicate k 0) = intfromlsb l := by
  induction l with
  | nil => simpa using intfromlsb_replicate_zero k
  | cons b rest ih => simp [intfromlsb, ih]

/-- The `while remains` loop of `inttobits` computes an LSB-first
representation of its argument (given enough fuel). -/
theorem intfromlsb_bitsLsbAux : ∀ fuel v, v ≤ fuel → intfromlsb (bitsLsbAux fuel v) = v := by
  intro fuel
  induction fuel with
  | zero =>
      intro v hv
      have h0 : v = 0 := by omega
      subst h0; rfl
  | succ fuel ih =>
      intro v hv
      match v with
      | 0 => rfl
      | (w + 1) =>
          simp only [bitsLsbAux, intfromlsb]
          rw [Nat.and_one_is_mod, Nat.shiftRight_one, ih ((w + 1) / 2) (by omega)]
          rcases Nat.mod_two_eq_zero_or_one (w + 1) with h | h <;> simp [h] <;> omega

/-- The loop of `inttobits` produces at most `w` bits for values below `2 ^ w`. -/
theorem bitsLsbAux_length_le : ∀ fuel v w, v ≤ fuel → v < 2 ^ w →
    (bitsLsbAux fuel v).length ≤ w := by
  intro fuel
  induction fuel with
  | zero =>
      intro v w hv _
      have h0 : v = 0 := by omega
      subst h0; simp [bitsLsbAux]
  | succ fuel ih =>
      intro v w hv hvw
      match v with
      | 0 => simp [bitsLsbAux]
      | (u + 1) =>
          match w with
          | 0 => omega
          | (w + 1) =>
              simp only [bitsLsbAux, List.length_cons]
              have h2 : (u + 1) >>> 1 < 2 ^ w := by
                rw [Nat.shiftRight_one, pow_succ] at *; omega
              have h3 := ih ((u + 1) >>> 1) w (by rw [Nat.shiftRight_one]; omega) h2
              omega

/-- The loop of `inttobits` produces more than `w` bits for values of at
least `2 ^ w`. -/
theorem bitsLsbAux_length_gt : ∀ fuel v w, v ≤ fuel → 2 ^ w ≤ v →
    w < (bitsLsbAux fuel v).length := by
  intro fuel
  induction fuel with
  | zero =>
      intro v w hv hw
      have hp : 0 < 2 ^ w := pow_pos (by norm_num) w
      omega
  | succ fuel ih =>
      intro v w hv hw
      match v with
      | 0 =>
          have hp : 0 < 2 ^ w := pow_pos (by norm_num) w
          omega
      | (u + 1) =>
          match w with
          | 0 => simp [bitsLsbAux]
          | (w + 1) =>
              simp only [bitsLsbAux, List.length_cons]
              have h2 : 2 ^ w ≤ (u + 1) >>> 1 := by
                rw [Nat.shiftRight_one, pow_succ] at *; omega
              have h3 := ih ((u + 1) >>> 1) w (by rw [Nat.shiftRight_one]; omega) h2
              omega

/-- Round trip of the two bit-integer conversions, for every width. -/
theorem intfrombits_inttobits (v w : Nat) : intfrombits (inttobits v w) = v := by
  unfold intfrombits inttobits
  rw [List.reverse_append, List.reverse_reverse, List.reverse_replicate]
  rw [foldOr_enumFrom _ 0 0 (by norm_num)]
  rw [intfromlsb_append_zeros, intfromlsb_bitsLsbAux v v (le_refl v)]
  simp

/-- C9: `inttobits(v, w)` is v's binary representation MSB first — exactly
`w` bits (left zero-padded) when `v < 2 ^ w`, and strictly more than `w`
bits (never truncated) when `v` needs more; `intfrombits` reads a bit list
MSB first with `intfrombits [] = 0`, and `intfrombits (inttobits v w) = v`
for every `v` and `w`. -/
theorem inttobits_intfrombits_contract (v w : Nat) :
    intfrombits (inttobits v w) = v
    ∧ (v < 2 ^ w → (inttobits v w).length = w)
    ∧ (2 ^ w ≤ v → w < (inttobits v w).length)
    ∧ intfrombits [] = 0 := by
  refine ⟨intfrombits_inttobits v w, ?_, ?_, rfl⟩
  · intro hlt
    have h := bitsLsbAux_length_le v v w (le_refl v) hlt
    simp only [inttobits, List.length_append, List.length_replicate, List.length_reverse]
    omega
  · intro hge
    have h := bitsLsbAux_length_gt v v w (le_refl v) hge
    simp only [inttobits, List.length_append, List.length_replicate, List.length_reverse]
    omega

/-- Witness for C9 at concrete inputs: 304 fits in 16 bits (the docstring
example) and 300 overflows width 4. -/
theorem inttobits_intfrombits_contract_witness :
    intfrombits (inttobits 304 16) = 304
    ∧ (inttobits 304 16).length = 16
    ∧ 4 < (inttobits 300 4).length :=
  ⟨(inttobits_intfrombits_contract 304 16).1,
   (inttobits_intfrombits_contract 304 16).2.1 (by norm_num),
   (inttobits_intfrombits_contract 300 4).2.2.1 (by norm_num)⟩

/-- C5: the `BitPacker` docstring fixture — packing `[1, 257]` with
`initial_code_size = 258` yields exactly the bytes `0x00, 0xC0, 0x40`
(codepoint 1 at 9 bits, BUMP 257 still at 9 bits, widening only afterward,
final partial byte zero-padded). -/
theorem pack_one_bump_fixture :
    BitPacker.pack 258 [1, 257] = [0x00, 0xC0, 0x40] := by decide

/-- C7: constructing an `Encoder` with `max_code_size` below the initial
dictionary size 259 raises a `ValueError` at construction, before any data
is processed; `max_code_size ≥ 259` succeeds. -/
theorem encoder_init_validates (m : Nat) :
    (m < 259 → (Encoder.init m).toOption = none)
    ∧ (259 ≤ m → Encoder.init m = Except.ok (Encoder.initSt m)) := by
  constructor
  · intro h
    simp only [Encoder.init, Encoder.initSt, EncState.code_size]
    rw [if_pos (by simpa using h)]
    rfl
  · intro h
    simp only [Encoder.init, Encoder.initSt, EncState.code_size]
    rw [if_neg (by simpa using Nat.not_lt.mpr h)]

/-- Witness for C7 at the boundary values 258 and 259. -/
theorem encoder_init_validates_witness :
    (Encoder.init 258).toOption = none
    ∧ Encoder.init 259 = Except.ok (Encoder.initSt 259) :=
  ⟨(encoder_init_validates 258).1 (by norm_num),
   (encoder_init_validates 259).2 (by norm_num)⟩

/-- C8: calling `_decode_codepoint` directly with `END_OF_INFO_CODE` raises
its dedicated `ValueError` in every decoder state (the message is specific
to this misuse; the other failure paths raise different errors), so the
code is never silently handled by the primitive. -/
theorem decode_codepoint_eoi_raises (st : DecState) :
    Decoder.decode_codepoint st END_OF_INFO_CODE = Except.error eoiErrorMsg := rfl

/-- C2 counterexample: a fresh default `Encoder` does not produce the
docstring's codepoint sequence for "gabba gabba yo gabba" — dynamic codes
start at `FIRST_CODE = 259`, not at 258 as the (stale) docstring shows. -/
theorem encode_gabba_ne_docstring :
    Encoder.encode (Encoder.initSt MAX_CODE) gabbaBytes ≠ gabbaDocCodes := by decide

/-- C2 amended: encoding "gabba gabba yo gabba" with a fresh default
`Encoder` yields `[103, 97, 98, 98, 97, 32, 259, 261, 263, 121, 111, 264,
260, 262, 256]`, and decoding that exact sequence with a fresh `Decoder`
yields the original bytes. -/
theorem encode_decode_gabba :
    Encoder.encode (Encoder.initSt MAX_CODE) gabbaBytes = gabbaCodes
    ∧ (Decoder.decode initDecState gabbaCodes).1.1 = gabbaBytes := by
  constructor <;> decide

/-- Processing a codepoint list that continues past its first
`END_OF_INFO_CODE` yields exactly the bytes of the part before it: the
`decode` loop returns at that code, whatever follows. -/
theorem decodeLoop_stops_at_eoi (post : List Nat) :
    ∀ (pre : List Nat) (st : DecState), END_OF_INFO_CODE ∉ pre →
      (Decoder.decodeLoop st (pre ++ END_OF_INFO_CODE :: post)).1
        = (Decoder.decodeLoop st pre).1 := by
  intro pre
  induction pre with
  | nil => intro st _; rfl
  | cons cp rest ih =>
      intro st h
      have hcp : cp ≠ END_OF_INFO_CODE := by
        intro he; exact h (he ▸ List.mem_cons_self cp rest)
      have hrest : END_OF_INFO_CODE ∉ rest := fun hm => h (List.mem_cons_of_mem cp hm)
      simp only [List.cons_append, Decoder.decodeLoop]
      by_cases hb : cp = BUMP_CODE
      · rw [if_pos hb, if_pos hb]
        exact ih st hrest
      · rw [if_neg hb, if_neg hb, if_neg hcp, if_neg hcp]
        cases hdc : Decoder.decode_codepoint st cp with
        | error e => rfl
        | ok p =>
            cases p with
            | mk v st1 =>
                cases v with
                | ctrl n => rfl
                | bs out => simp only [List.append_eq, ih st1 hrest]

/-- C3 amended: for any decoder state and any codepoint stream whose first
`END_OF_INFO_CODE` splits it as `pre ++ [END_OF_INFO] ++ post`, the bytes
`decode` yields are exactly those decoded from `pre` (the codepoints after
the first `END_OF_INFO_CODE` contribute nothing to the output); however
`decode` drains its entire source up front (its first statement materialises
the iterator into a list), so nothing of the source is left unconsumed. -/
theorem decode_stops_at_first_eoi (st : DecState) (pre post : List Nat)
    (h : END_OF_INFO_CODE ∉ pre) :
    (Decoder.decode st (pre ++ END_OF_INFO_CODE :: post)).1.1
      = (Decoder.decodeLoop st pre).1
    ∧ (Decoder.decode st (pre ++ END_OF_INFO_CODE :: post)).2 = [] :=
  ⟨decodeLoop_stops_at_eoi post pre st h, rfl⟩

/-- Witness for C3: one literal codepoint before the terminator, one after. -/
theorem decode_stops_at_first_eoi_witness :
    (Decoder.decode initDecState ([103] ++ END_OF_INFO_CODE :: [42])).1.1
      = (Decoder.decodeLoop initDecState [103]).1
    ∧ (Decoder.decode initDecState ([103] ++ END_OF_INFO_CODE :: [42])).2 = [] :=
  decode_stops_at_first_eoi initDecState [103] [42] (by decide)

/-- C3 counterexample: the claim that codepoints after the first
`END_OF_INFO_CODE` "are not consumed from the source stream by this
Decoder" is false — `decode` materialises its whole source before
processing, so after decoding `[256, 42]` the trailing `[42]` has been
consumed (nothing remains), not left in the stream. -/
theorem decode_drains_source_after_eoi :
    ¬ ((Decoder.decode initDecState [END_OF_INFO_CODE, 42]).2 = [42]) := by decide

/-- Processing one byte either leaves the codebook size unchanged or adds
exactly one entry. -/
theorem code_size_encode_byte (st : EncState) (b : Nat) :
    (Encoder.encode_byte st b).1.code_size = st.code_size
    ∨ (Encoder.encode_byte st b).1.code_size = st.code_size + 1 := by
  simp only [Encoder.encode_byte]
  by_cases h1 : (prefixesLookup st (st.buffer ++ [b])).isSome
  · rw [if_pos h1]; left; rfl
  · rw [if_neg h1]
    by_cases h2 : st.buffer ≠ []
    · rw [if_pos h2]; right
      simp only [EncState.code_size, addCode, List.length_append, List.length_cons,
        List.length_nil]
      omega
    · rw [if_neg h2]; left; rfl

/-- Flushing always resets the codebook to its 259 initial entries. -/
theorem code_size_flush (st : EncState) : (Encoder.flush st).1.code_size = 259 := by
  simp only [Encoder.flush, clearEncCodes, EncState.code_size]
  rfl

/-- Bumping never changes the codebook size. -/
theorem code_size_bump (st : EncState) : (Encoder.bump st).1.code_size = st.code_size := rfl

/-- C4 amended: across one iteration of the `encode` loop, the codebook
size grows by at most one entry per input byte, and whenever it decreases
it has been reset to exactly the 259 initial entries by the overflow flush
(`code_size > max_code_size`); it is non-decreasing in every step in which
no overflow flush fires. -/
theorem enc_size_step (st : EncState) (b : Nat) :
    (encStep st b).1.code_size ≤ st.code_size + 1
    ∧ ((encStep st b).1.code_size < st.code_size → (encStep st b).1.code_size = 259) := by
  have hstep : (encStep st b).1.code_size = 259
      ∨ (encStep st b).1.code_size = (Encoder.encode_byte st b).1.code_size := by
    simp only [encStep]
    by_cases hf : (Encoder.encode_byte st b).1.code_size
        > (Encoder.encode_byte st b).1.max_code_size
    · rw [if_pos hf]
      by_cases hb2 : (Encoder.flush (Encoder.encode_byte st b).1).1.code_size
          > (Encoder.flush (Encoder.encode_byte st b).1).1.next_bumb_code
      · rw [if_pos hb2]; left; rw [code_size_bump, code_size_flush]
      · rw [if_neg hb2]; left; exact code_size_flush _
    · rw [if_neg hf]
      by_cases hb2 : (Encoder.encode_byte st b).1.code_size
          > (Encoder.encode_byte st b).1.next_bumb_code
      · rw [if_pos hb2]; right; exact code_size_bump _
      · rw [if_neg hb2]; right; rfl
  have h1 := code_size_encode_byte st b
  have h2 : 259 ≤ st.code_size := Nat.le_add_right 259 st.added.length
  constructor
  · rcases hstep with h | h <;> rcases h1 with h1 | h1 <;> omega
  · intro hlt
    rcases hstep with h | h <;> rcases h1 with h1 | h1 <;> omega

/-- Witness for C4's amended step property: the reset actually happens at
the fourth byte of "aabb" under `max_code_size = 261`. -/
theorem enc_size_step_witness :
    (encStep ((encodeLoop (Encoder.initSt 261) [97, 97, 98]).1) 98).1.code_size
        ≤ ((encodeLoop (Encoder.initSt 261) [97, 97, 98]).1).code_size + 1
    ∧ (encStep ((encodeLoop (Encoder.initSt 261) [97, 97, 98]).1) 98).1.code_size = 259 :=
  ⟨(enc_size_step _ 98).1, (enc_size_step _ 98).2 (by decide)⟩

/-- C4 counterexample: with the constructor-accepted configuration
`max_code_size = 261`, the dictionary size after the first 4 bytes of
"aabb" (259, reset by the overflow flush) is strictly below its size after
the first 3 bytes (261), so the size is not non-decreasing in N. -/
theorem enc_size_not_monotone :
    ((encodeLoop (Encoder.initSt 261) [97, 97, 98, 98]).1).code_size
      < ((encodeLoop (Encoder.initSt 261) [97, 97, 98]).1).code_size := by decide

/-- Flushing whole bytes removes bits 8 at a time, so it preserves the bit
count modulo 8. -/
theorem drainBits_mod : ∀ tb : List Nat, (drainBits tb).2.length % 8 = tb.length % 8
  | b0 :: b1 :: b2 :: b3 :: b4 :: b5 :: b6 :: b7 :: c :: rest => by
      have ih := drainBits_mod (c :: rest)
      simp only [drainBits]
      simp only [List.length_cons] at ih ⊢
      omega
  | [] => rfl
  | [_] => rfl
  | [_, _] => rfl
  | [_, _, _] => rfl
  | [_, _, _, _] => rfl
  | [_, _, _, _, _] => rfl
  | [_, _, _, _, _, _] => rfl
  | [_, _, _, _, _, _, _] => rfl
  | [_, _, _, _, _, _, _, _] => rfl

/-- Padding runs to the next byte boundary. -/
theorem padTo8_mod (tb : List Nat) : (padTo8 tb).length % 8 = 0 := by
  simp only [padTo8, List.length_append, List.length_replicate]
  omega

/-- After packing an `END_OF_INFO_CODE` the packer's bit buffer sits at a
byte boundary, whatever the state before. -/
theorem packStep_eoi_tailbits (s : PackState) :
    ((packStep s END_OF_INFO_CODE).1).tailbits.length % 8 = 0 := by
  have h : (packStep s END_OF_INFO_CODE).1.tailbits
      = (drainBits (padTo8 (s.tailbits ++ inttobits END_OF_INFO_CODE s.nextwidth))).2 := rfl
  rw [h, drainBits_mod, padTo8_mod]

/-- The packing loop splits over list append (final states compose). -/
theorem packLoop_append (xs ys : List Nat) :
    ∀ s, (packLoop s (xs ++ ys)).1 = (packLoop (packLoop s xs).1 ys).1 := by
  induction xs with
  | nil => intro s; rfl
  | cons x xs ih =>
      intro s
      simp only [List.cons_append, packLoop]
      exact ih _

/-- Every branch of the unpacker's bit step advances the offset by one
modulo 8. -/
theorem unpackBit_offset (s : UnpackState) (b : Nat) :
    (unpackBit s b).1.offset = (s.offset + 1) % 8 := by
  simp only [unpackBit]
  by_cases hi : s.ignore > 0
  · rw [if_pos hi]
  · rw [if_neg hi]
    by_cases hl : (s.bits ++ [b]).length = s.pointwidth
    · rw [if_pos hl]
    · rw [if_neg hl]

/-- Along the unpack loop the offset tracks the number of consumed bits
modulo 8. -/
theorem unpackLoop_offset (bits : List Nat) :
    ∀ s, (unpackLoop s bits).1.offset % 8 = (s.offset + bits.length) % 8 := by
  induction bits with
  | nil => intro s; simp [unpackLoop]
  | cons b rest ih =>
      intro s
      simp only [unpackLoop, List.length_cons]
      rw [ih, unpackBit_offset]
      omega

/-- When the unpacker's bit step emits `END_OF_INFO_CODE`, it clears the
accumulation buffer and arms `ignore` to skip up to the next byte
boundary. -/
theorem unpackBit_eoi (s : UnpackState) (b : Nat)
    (h : (unpackBit s b).2 = [END_OF_INFO_CODE]) :
    (unpackBit s b).1.ignore = (8 - (s.offset + 1) % 8) % 8
    ∧ (unpackBit s b).1.bits = [] := by
  simp only [unpackBit] at h ⊢
  by_cases hi : s.ignore > 0
  · rw [if_pos hi] at h; simp at h
  · rw [if_neg hi] at h ⊢
    by_cases hl : (s.bits ++ [b]).length = s.pointwidth
    · rw [if_pos hl] at h ⊢
      have hcp : intfrombits (s.bits ++ [b]) = END_OF_INFO_CODE := by
        simpa using h
      refine ⟨?_, rfl⟩
      simp [hcp]
    · rw [if_neg hl] at h; simp at h

/-- C6: after each `END_OF_INFO_CODE` packed by `BitPacker.pack`, the bit
buffer has been zero-padded to a byte boundary (the flushed bytes are whole,
so the next packed codepoint starts exactly at a byte boundary); dually,
when the `BitUnpacker.unpack` loop emits `END_OF_INFO_CODE` after consuming
`n + 1` input bits, it clears its accumulation buffer and arms `ignore` so
that accumulation resumes only at the next multiple of 8 input bits. -/
theorem eoi_byte_alignment :
    (∀ ics (cps : List Nat),
      ((packLoop (initPack ics) (cps ++ [END_OF_INFO_CODE])).1).tailbits.length % 8 = 0)
    ∧ (∀ ics (pre : List Nat) (b : Nat),
        (unpackBit ((unpackLoop (initUnpack ics) pre).1) b).2 = [END_OF_INFO_CODE] →
        (pre.length + 1
            + (unpackBit ((unpackLoop (initUnpack ics) pre).1) b).1.ignore) % 8 = 0
        ∧ (unpackBit ((unpackLoop (initUnpack ics) pre).1) b).1.bits = []) := by
  constructor
  · intro ics cps
    rw [packLoop_append]
    exact packStep_eoi_tailbits _
  · intro ics pre b h
    have hoff := unpackLoop_offset pre (initUnpack ics)
    have h0 : (initUnpack ics).offset = 0 := rfl
    rw [h0] at hoff
    have heoi := unpackBit_eoi _ b h
    refine ⟨?_, heoi.2⟩
    rw [heoi.1]
    omega

/-- Witness for C6: a lone terminator on the pack side; on the unpack side
the 9 bits of the codepoint 256 itself, whose emission arms a 7-bit skip
(9 + 7 = 16 is a multiple of 8). -/
theorem eoi_byte_alignment_witness :
    ((packLoop (initPack 259) ([] ++ [END_OF_INFO_CODE])).1).tailbits.length % 8 = 0
    ∧ (([1, 0, 0, 0, 0, 0, 0, 0].length + 1
          + (unpackBit ((unpackLoop (initUnpack 259) [1, 0, 0, 0, 0, 0, 0, 0]).1) 0).1.ignore)
            % 8 = 0
       ∧ (unpackBit ((unpackLoop (initUnpack 259) [1, 0, 0, 0, 0, 0, 0, 0]).1) 0).1.bits
            = []) :=
  ⟨eoi_byte_alignment.1 259 [],
   eoi_byte_alignment.2 259 [1, 0, 0, 0, 0, 0, 0, 0] 0 (by decide)⟩

/-- Invariant of the encoder dictionary: every entry added by `_add_code`
carries a codepoint of at least `FIRST_CODE = 259` (it is assigned
`len(_prefixes)`, which never falls below the 259 initial entries). -/
def AddedGE (st : EncState) : Prop := ∀ kv ∈ st.added, FIRST_CODE ≤ kv.2

/-- A successful lookup among added entries with values of at least 259
returns a value of at least 259. -/
theorem lookupStr_ge (w : List Nat) :
    ∀ (l : List (List Nat × Nat)), (∀ kv ∈ l, FIRST_CODE ≤ kv.2) →
      ∀ v, lookupStr l w = some v → FIRST_CODE ≤ v := by
  intro l
  induction l with
  | nil => intro _ v hv; simp [lookupStr] at hv
  | cons kv rest ih =>
      intro h v hv
      simp only [lookupStr] at hv
      by_cases he : kv.1 = w
      · rw [if_pos he] at hv
        cases hv
        exact h kv (List.mem_cons_self kv rest)
      · rw [if_neg he] at hv
        exact ih (fun kv' h' => h kv' (List.mem_cons_of_mem kv h')) v hv

/-- No byte-string lookup in `_prefixes` can produce `CLEAR_CODE`: single
bytes are below 256, added entries are at least 259, and the fallback
default is 0. -/
theorem prefixesLookup_getD_ne_clear (st : EncState) (h : AddedGE st) (w : List Nat) :
    (prefixesLookup st w).getD 0 ≠ CLEAR_CODE := by
  rcases w with _ | ⟨b, _ | ⟨b2, rest⟩⟩
  · show (lookupStr st.added []).getD 0 ≠ CLEAR_CODE
    cases hl : lookupStr st.added [] with
    | none => simp [CLEAR_CODE]
    | some v =>
        have := lookupStr_ge [] st.added h v hl
        simp only [Option.getD_some, CLEAR_CODE, FIRST_CODE] at *
        omega
  · show (if b < 256 then some b else none).getD 0 ≠ CLEAR_CODE
    by_cases hb : b < 256
    · rw [if_pos hb]
      simp only [Option.getD_some, CLEAR_CODE]
      omega
    · rw [if_neg hb]
      simp [CLEAR_CODE]
  · show (lookupStr st.added (b :: b2 :: rest)).getD 0 ≠ CLEAR_CODE
    cases hl : lookupStr st.added (b :: b2 :: rest) with
    | none => simp [CLEAR_CODE]
    | some v =>
        have := lookupStr_ge (b :: b2 :: rest) st.added h v hl
        simp only [Option.getD_some, CLEAR_CODE, FIRST_CODE] at *
        omega

/-- Source `_encode_byte` never yields `CLEAR_CODE` and preserves the dictionary
invariant. -/
theorem encode_byte_no_clear (st : EncState) (b : Nat) (h : AddedGE st) :
    (∀ c ∈ (Encoder.encode_byte st b).2, c ≠ CLEAR_CODE)
    ∧ AddedGE (Encoder.encode_byte st b).1 := by
  simp only [Encoder.encode_byte]
  by_cases h1 : (prefixesLookup st (st.buffer ++ [b])).isSome
  · rw [if_pos h1]
    exact ⟨by simp, h⟩
  · rw [if_neg h1]
    by_cases h2 : st.buffer ≠ []
    · rw [if_pos h2]
      constructor
      · intro c hc
        simp only [List.mem_singleton] at hc
        subst hc
        exact prefixesLookup_getD_ne_clear st h st.buffer
      · intro kv hkv
        simp only [addCode, List.mem_append, List.mem_singleton] at hkv
        rcases hkv with hkv | hkv
        · exact h kv hkv
        · subst hkv
          simp only [EncState.code_size, FIRST_CODE]
          omega
    · rw [if_neg h2]
      exact ⟨by simp, h⟩

/-- Source `flush` yields only a buffered code and `END_OF_INFO_CODE`, never
`CLEAR_CODE` (despite its docstring), and resets the added entries. -/
theorem flush_no_clear (st : EncState) (h : AddedGE st) :
    (∀ c ∈ (Encoder.flush st).2, c ≠ CLEAR_CODE) ∧ AddedGE (Encoder.flush st).1 := by
  simp only [Encoder.flush]
  by_cases hb : st.buffer ≠ []
  · rw [if_pos hb]
    constructor
    · intro c hc
      simp only [List.mem_append, List.mem_singleton] at hc
      rcases hc with hc | hc
      · subst hc
        exact prefixesLookup_getD_ne_clear st h st.buffer
      · subst hc
        simp [END_OF_INFO_CODE, CLEAR_CODE]
    · intro kv hkv
      exact absurd hkv (by simp [clearEncCodes])
  · rw [if_neg hb]
    constructor
    · intro c hc
      simp only [List.nil_append, List.mem_singleton] at hc
      subst hc
      simp [END_OF_INFO_CODE, CLEAR_CODE]
    · intro kv hkv
      exact absurd hkv (by simp [clearEncCodes])

/-- Source `bump` yields only `BUMP_CODE` and does not touch the dictionary. -/
theorem bump_no_clear (st : EncState) (h : AddedGE st) :
    (∀ c ∈ (Encoder.bump st).2, c ≠ CLEAR_CODE) ∧ AddedGE (Encoder.bump st).1 := by
  refine ⟨?_, h⟩
  intro c hc
  simp only [Encoder.bump, List.mem_singleton] at hc
  subst hc
  simp [BUMP_CODE, CLEAR_CODE]

/-- One `encode` loop iteration never yields `CLEAR_CODE` and preserves the
dictionary invariant. -/
theorem encStep_no_clear (st : EncState) (b : Nat) (h : AddedGE st) :
    (∀ c ∈ (encStep st b).2, c ≠ CLEAR_CODE) ∧ AddedGE (encStep st b).1 := by
  obtain ⟨ho1, hs1⟩ := encode_byte_no_clear st b h
  simp only [encStep]
  by_cases hf : (Encoder.encode_byte st b).1.code_size
      > (Encoder.encode_byte st b).1.max_code_size
  · rw [if_pos hf]
    obtain ⟨ho2, hs2⟩ := flush_no_clear _ hs1
    by_cases hb2 : (Encoder.flush (Encoder.encode_byte st b).1).1.code_size
        > (Encoder.flush (Encoder.encode_byte st b).1).1.next_bumb_code
    · rw [if_pos hb2]
      obtain ⟨ho3, hs3⟩ := bump_no_clear _ hs2
      refine ⟨?_, hs3⟩
      intro c hc
      simp only [List.mem_append] at hc
      rcases hc with (hc | hc) | hc
      · exact ho1 c hc
      · exact ho2 c hc
      · exact ho3 c hc
    · rw [if_neg hb2]
      refine ⟨?_, hs2⟩
      intro c hc
      simp only [List.mem_append, List.not_mem_nil] at hc
      rcases hc with (hc | hc) | hc
      · exact ho1 c hc
      · exact ho2 c hc
      · exact hc.elim
  · rw [if_neg hf]
    by_cases hb2 : (Encoder.encode_byte st b).1.code_size
        > (Encoder.encode_byte st b).1.next_bumb_code
    · rw [if_pos hb2]
      obtain ⟨ho3, hs3⟩ := bump_no_clear _ hs1
      refine ⟨?_, hs3⟩
      intro c hc
      simp only [List.mem_append, List.not_mem_nil] at hc
      rcases hc with (hc | hc) | hc
      · exact ho1 c hc
      · exact hc.elim
      · exact ho3 c hc
    · rw [if_neg hb2]
      refine ⟨?_, hs1⟩
      intro c hc
      simp only [List.mem_append, List.not_mem_nil] at hc
      rcases hc with (hc | hc) | hc
      · exact ho1 c hc
      · exact hc.elim
      · exact hc.elim

/-- The whole `encode` loop never yields `CLEAR_CODE` and preserves the
dictionary invariant. -/
theorem encodeLoop_no_clear (bs : List Nat) :
    ∀ st, AddedGE st →
      (∀ c ∈ (encodeLoop st bs).2, c ≠ CLEAR_CODE) ∧ AddedGE (encodeLoop st bs).1 := by
  induction bs with
  | nil => intro st h; exact ⟨by simp [encodeLoop], h⟩
  | cons b rest ih =>
      intro st h
      obtain ⟨ho, hs⟩ := encStep_no_clear st b h
      obtain ⟨ho2, hs2⟩ := ih _ hs
      refine ⟨?_, hs2⟩
      intro c hc
      simp only [encodeLoop, List.mem_append] at hc
      rcases hc with hc | hc
      · exact ho c hc
      · exact ho2 c hc

/-- C10: a fresh `Encoder`, at any configured `max_code_size`, never emits
the `CLEAR_CODE` 258 on any input byte stream: literals are below 256,
dynamically assigned codes start at 259, `flush` emits `END_OF_INFO_CODE`
256 and `bump` emits `BUMP_CODE` 257. -/
theorem encode_never_yields_clear (m : Nat) (bs : List Nat)
    (hbytes : ∀ b ∈ bs, b < 256) :
    CLEAR_CODE ∉ Encoder.encode (Encoder.initSt m) bs := by
  intro hmem
  have hinit : AddedGE (Encoder.initSt m) := by
    intro kv hkv
    simp [Encoder.initSt] at hkv
  obtain ⟨ho, hs⟩ := encodeLoop_no_clear bs (Encoder.initSt m) hinit
  obtain ⟨ho2, _⟩ := flush_no_clear _ hs
  simp only [Encoder.encode, List.mem_append] at hmem
  rcases hmem with hmem | hmem
  · exact ho _ hmem rfl
  · exact ho2 _ hmem rfl

/-- Witness for C10 on the default configuration and a concrete text. -/
theorem encode_never_yields_clear_witness :
    CLEAR_CODE ∉ Encoder.encode (Encoder.initSt MAX_CODE) gabbaBytes :=
  encode_never_yields_clear MAX_CODE gabbaBytes (by decide)

/-! Round trips do hold at the default configuration on inputs whose
encoding never overflows the codebook (no mid-stream flush). -/

set_option maxRecDepth 100000 in
example : decompress (compress gabbaBytes) = gabbaBytes := by decide

example : decompress (compress []) = [] := by decide

/-- Splitting a byte source splits its bit stream. -/
theorem bytestobits_append (xs ys : List Nat) :
    bytestobits (xs ++ ys) = bytestobits xs ++ bytestobits ys := by
  simp [bytestobits]

/-- The unpack loop splits over list append: the second part runs from the
state the first part reaches, and the outputs concatenate. -/
theorem unpackLoop_append (xs ys : List Nat) : ∀ s,
    unpackLoop s (xs ++ ys)
      = ((unpackLoop (unpackLoop s xs).1 ys).1,
         (unpackLoop s xs).2 ++ (unpackLoop (unpackLoop s xs).1 ys).2) := by
  induction xs with
  | nil => intro s; simp [unpackLoop]
  | cons x xs ih =>
      intro s
      simp only [List.cons_append, unpackLoop, List.append_eq]
      rw [ih]
      simp [List.append_assoc]

set_option maxRecDepth 100000 in
/-- Unpacking chunk 1 of the packed `bugInput` stream, by evaluation. -/
theorem unpack_chunk1 :
    unpackLoop (initUnpack 259) (bytestobits bugPackedChunk1) = (unpackMid1, unpackOut1) := by
  decide

set_option maxRecDepth 100000 in
/-- Unpacking chunk 2 of the packed `bugInput` stream, by evaluation. -/
theorem unpack_chunk2 :
    unpackLoop (unpackMid1) (bytestobits bugPackedChunk2) = (unpackMid2, unpackOut2) := by
  decide

set_option maxRecDepth 100000 in
/-- Unpacking chunk 3 of the packed `bugInput` stream, by evaluation. -/
theorem unpack_chunk3 :
    unpackLoop (unpackMid2) (bytestobits bugPackedChunk3) = (unpackMid3, unpackOut3) := by
  decide

set_option maxRecDepth 100000 in
/-- Unpacking chunk 4 of the packed `bugInput` stream, by evaluation. -/
theorem unpack_chunk4 :
    unpackLoop (unpackMid3) (bytestobits bugPackedChunk4) = (unpackMid4, unpackOut4) := by
  decide

set_option maxRecDepth 100000 in
/-- Unpacking chunk 5 of the packed `bugInput` stream, by evaluation. -/
theorem unpack_chunk5 :
    unpackLoop (unpackMid4) (bytestobits bugPackedChunk5) = (unpackMid5, unpackOut5) := by
  decide

set_option maxRecDepth 100000 in
/-- Unpacking chunk 6 of the packed `bugInput` stream, by evaluation. -/
theorem unpack_chunk6 :
    unpackLoop (unpackMid5) (bytestobits bugPackedChunk6) = (unpackMid6, unpackOut6) := by
  decide

set_option maxRecDepth 100000 in
/-- Unpacking chunk 7 of the packed `bugInput` stream, by evaluation. -/
theorem unpack_chunk7 :
    unpackLoop (unpackMid6) (bytestobits bugPackedChunk7) = (unpackMid7, unpackOut7) := by
  decide

set_option maxRecDepth 100000 in
/-- Unpacking chunk 8 of the packed `bugInput` stream, by evaluation. -/
theorem unpack_chunk8 :
    unpackLoop (unpackMid7) (bytestobits bugPackedChunk8) = (unpackMid8, unpackOut8) := by
  decide

set_option maxRecDepth 100000 in
/-- Unpacking chunk 9 of the packed `bugInput` stream, by evaluation. -/
theorem unpack_chunk9 :
    unpackLoop (unpackMid8) (bytestobits bugPackedChunk9) = (unpackMid9, unpackOut9) := by
  decide

set_option maxRecDepth 100000 in
/-- Unpacking chunk 10 of the packed `bugInput` stream, by evaluation. -/
theorem unpack_chunk10 :
    unpackLoop (unpackMid9) (bytestobits bugPackedChunk10) = (unpackMid10, unpackOut10) := by
  decide

set_option maxRecDepth 100000 in
/-- Unpacking chunk 11 of the packed `bugInput` stream, by evaluation. -/
theorem unpack_chunk11 :
    unpackLoop (unpackMid10) (bytestobits bugPackedChunk11) = (unpackMid11, unpackOut11) := by
  decide

set_option maxRecDepth 100000 in
/-- Unpacking chunk 12 of the packed `bugInput` stream, by evaluation. -/
theorem unpack_chunk12 :
    unpackLoop (unpackMid11) (bytestobits bugPackedChunk12) = (unpackMid12, unpackOut12) := by
  decide

set_option maxRecDepth 100000 in
/-- Unpacking chunk 13 of the packed `bugInput` stream, by evaluation. -/
theorem unpack_chunk13 :
    unpackLoop (unpackMid12) (bytestobits bugPackedChunk13) = (unpackMid13, unpackOut13) := by
  decide

set_option maxRecDepth 100000 in
/-- Unpacking chunk 14 of the packed `bugInput` stream, by evaluation. -/
theorem unpack_chunk14 :
    unpackLoop (unpackMid13) (bytestobits bugPackedChunk14) = (unpackMid14, unpackOut14) := by
  decide

set_option maxRecDepth 100000 in
/-- Unpacking chunk 15 of the packed `bugInput` stream, by evaluation. -/
theorem unpack_chunk15 :
    unpackLoop (unpackMid14) (bytestobits bugPackedChunk15) = (unpackMid15, unpackOut15) := by
  decide

set_option maxRecDepth 100000 in
/-- Unpacking chunk 16 of the packed `bugInput` stream, by evaluation. -/
theorem unpack_chunk16 :
    unpackLoop (unpackMid15) (bytestobits bugPackedChunk16) = (unpackMid16, unpackOut16) := by
  decide

set_option maxRecDepth 100000 in
/-- Unpacking chunk 17 of the packed `bugInput` stream, by evaluation. -/
theorem unpack_chunk17 :
    unpackLoop (unpackMid16) (bytestobits bugPackedChunk17) = (unpackMid17, unpackOut17) := by
  decide

set_option maxRecDepth 100000 in
/-- Unpacking chunk 18 of the packed `bugInput` stream, by evaluation. -/
theorem unpack_chunk18 :
    unpackLoop (unpackMid17) (bytestobits bugPackedChunk18) = (unpackMid18, unpackOut18) := by
  decide

set_option maxRecDepth 100000 in
/-- Unpacking chunk 19 of the packed `bugInput` stream, by evaluation. -/
theorem unpack_chunk19 :
    unpackLoop (unpackMid18) (bytestobits bugPackedChunk19) = (unpackMid19, unpackOut19) := by
  decide

set_option maxRecDepth 100000 in
/-- The unpacker recovers exactly the encoder's codepoint stream from the
packed `bugInput` bytes. -/
theorem unpack_bugPacked : BitUnpacker.unpack 259 bugPacked = bugCodes := by
  simp only [BitUnpacker.unpack, bugPacked, bytestobits_append, unpackLoop_append,
    unpack_chunk1, unpack_chunk2, unpack_chunk3, unpack_chunk4, unpack_chunk5, unpack_chunk6, unpack_chunk7, unpack_chunk8, unpack_chunk9, unpack_chunk10, unpack_chunk11, unpack_chunk12, unpack_chunk13, unpack_chunk14, unpack_chunk15, unpack_chunk16, unpack_chunk17, unpack_chunk18, unpack_chunk19]
  decide

set_option maxRecDepth 1000000 in
set_option maxHeartbeats 4000000 in
/-- The encoder's codepoint stream for `bugInput` at `max_code_size = 2 ^ 9`,
by evaluation: it contains a mid-stream `END_OF_INFO_CODE` emitted by the
overflow flush. -/
theorem encode_bugInput :
    Encoder.encode (Encoder.initSt (2 ^ 9)) bugInput = bugCodes := by
  decide

set_option maxRecDepth 200000 in
/-- Packing that codepoint stream yields `bugPacked`, by evaluation. -/
theorem pack_bugCodes : BitPacker.pack 259 bugCodes = bugPacked := by
  decide

set_option maxRecDepth 200000 in
/-- The decode loop, stopped by the mid-stream `END_OF_INFO_CODE`, yields
only 255 of the 256 input bytes. -/
theorem decode_bugCodes_length :
    (Decoder.decodeLoop initDecState bugCodes).1.length = 255 := by
  decide

set_option maxRecDepth 100000 in
/-- C1 (defect demonstration): under the public `ByteEncoder` configuration
`max_width = 9` (`max_code_size = 512`), the 256-byte input
`[0, 1, 0, 2, ..., 0, 128]` overflows the codebook mid-stream; the overflow
`flush` emits `END_OF_INFO_CODE` (even though its own docstring says it
yields a `CLEAR_CODE`), and `Decoder.decode` returns at the first
`END_OF_INFO_CODE`, so decompression keeps only 255 of the 256 bytes and
the round trip `decompress(compress(x)) == x` fails.  The same mechanism
breaks the default `max_width = 15` configuration once the codebook passes
`2 ^ 15` entries (inputs of about 32.6 kB with pairwise distinct
consecutive byte pairs), merely at a size no kernel evaluation can reach. -/
theorem overflow_flush_truncates_roundtrip :
    ByteDecoder.decodefrombytes (ByteEncoder.encodetobytes 9 bugInput) ≠ bugInput := by
  intro h
  have he : ByteEncoder.encodetobytes 9 bugInput = bugPacked := by
    simp only [ByteEncoder.encodetobytes]
    rw [show (Encoder.initSt (2 ^ 9)).code_size = 259 from rfl]
    rw [encode_bugInput, pack_bugCodes]
  have hd : ByteDecoder.decodefrombytes bugPacked
      = (Decoder.decodeLoop initDecState bugCodes).1 := by
    simp only [ByteDecoder.decodefrombytes]
    rw [show initDecState.code_size = 259 from rfl]
    rw [unpack_bugPacked]
    rfl
  rw [he, hd] at h
  have hlen := congrArg List.length h
  rw [decode_bugCodes_length] at hlen
  have hbug : bugInput.length = 256 := by decide
  omega

end Lzw15
